import Mathlib

/-!
Shallow embedding of the FastAPI OCR endpoint `perform_ocr` from
`src/api/app/routes/ocr.py` (the only source file of the repository).

The endpoint's own logic is integration glue over external collaborators
(the OCR predictor, the `pypdfium2` rasterizer behind `DocumentFile.from_pdf`,
`ocrmypdf`'s `HocrTransform`, `PyPDF2`'s merger/reader/writer, `torch`).
We embed the handler's control flow faithfully:

* every external call is represented by an `Env` field returning
  `Except PyErr _`, so a run of the handler is parametrised by which
  collaborator calls succeed or raise, mirroring Python exceptions;
* observable side effects (the inference call, `torch.cuda.empty_cache()`,
  the `DocumentFile.from_pdf` rasterization and the DPI it derives its scale
  from, each `HocrTransform(..., dpi=...)` construction, each file creation
  in the temporary directory, and the `TemporaryDirectory` cleanup) are
  recorded as an ordered event trace;
* Python strings used as file paths are modelled as `List Char`
  (identical comparison semantics: code-point lexicographic), and
  `sorted(pdf_paths)` at line 68 is modelled by a stable insertion sort
  `pySorted` under that lexicographic order, exactly as CPython's `sorted`
  behaves on distinct strings;
* page images, markup (xml) payloads and file byte buffers are opaque
  atoms (`Nat` identifiers): the single-page PDF produced for page `i` is
  identified by the pair `(xml_i, img_i)` that `HocrTransform.to_pdf` was
  given, which is all the order/pairing claims need;
* `PdfMerger` metadata is a Python-dict-like association list with
  `dictUpdate` mirroring `dict.update` (replace in place, else append).
-/

/-- A page raster image, opaque atom. -/
abbrev Image := Nat

/-- A per-page markup (hOCR xml) payload, opaque atom
(`xml[0].decode()` selects the byte payload of each export tuple). -/
abbrev Xml := Nat

/-- A file path, modelled as its character sequence. -/
abbrev FPath := List Char

/-- One element of the `files: list[UploadFile]` parameter; only its raw
byte content matters to the handler, kept as an opaque atom. -/
structure UpFile where
  bytes : Nat
deriving DecidableEq, Repr

/-- A Python exception as seen by the handler: the `try` block at lines
27-32 catches exactly `ValueError`; anything else propagates. -/
inductive PyErr where
  | valueError (msg : String)
  | otherError (msg : String)
deriving DecidableEq, Repr

/-- Observable events of one request, in program order. -/
inductive Event where
  /-- `out = predictor(content)` (line 34) returned, on this content. -/
  | inferredOn (content : List Image)
  /-- `torch.cuda.empty_cache()` (line 39) ran. -/
  | emptiedCudaCache
  /-- `DocumentFile.from_pdf(file_bytes, scale=dpi/72.0)` (lines 44-45) was
  called, recording the DPI the scale was derived from and which bytes. -/
  | rasterized (dpi : Nat) (bytes : Nat)
  /-- `HocrTransform(hocr_filename=..., dpi=...)` + `.to_pdf` was invoked
  for page `page` with the given DPI (lines 59-60). -/
  | hocrCalled (dpi : Nat) (page : Nat)
  /-- A file was created at `path` (all writes inside the handler). -/
  | created (path : FPath)
  /-- The `TemporaryDirectory` context manager removed the directory and
  everything inside it (exit of the `with` at line 48). -/
  | removedTmpdir
deriving DecidableEq, Repr

/-- The handler's result: a 200 response carrying the merged PDF
(its pages, its metadata dictionary, the media type), an
`HTTPException` (line 32), or an uncaught Python exception. -/
inductive Outcome where
  | ok (pages : List (Xml × Image)) (meta : List (String × String)) (mediaType : String)
  | clientError (code : Nat) (detail : String)
  | serverError (err : PyErr)
deriving DecidableEq, Repr

/-- Behaviour of every external collaborator call the handler makes, one
field per call site, each able to raise (`Except.error`). -/
structure Env where
  /-- `await get_documents(files)` (line 29): content images + filenames. -/
  getDocuments : List UpFile → Except PyErr (List Image × List String)
  /-- `init_predictor(request)` (line 30). -/
  initPredictor : Except PyErr Unit
  /-- `out = predictor(content)` (line 34); result opaque. -/
  predict : List Image → Except PyErr Nat
  /-- `xml_outputs = out.export_as_xml()` (line 36). -/
  exportAsXml : Nat → Except PyErr (List Xml)
  /-- `DocumentFile.from_pdf(file_bytes, scale=...)` (line 45). -/
  fromPdf : Nat → Except PyErr (List Image)
  /-- `Image.fromarray(img).save(img_path, "JPEG", quality=90)` (line 54), per page. -/
  saveJpeg : Nat → Except PyErr Unit
  /-- `open(xml_path, "w").write(xml[0].decode())` (lines 56-57), per page. -/
  writeXml : Nat → Except PyErr Unit
  /-- `hocr.to_pdf(out_filename=pdf_path, image_filename=img_path)` (line 60), per page. -/
  hocrToPdf : Nat → Except PyErr Unit
  /-- `merger.write(merged_pdf_path)` (line 69). -/
  mergerWrite : Except PyErr Unit
  /-- `reader.metadata` of the merged file (line 79; `None` maps to `none`). -/
  mergedMeta : Option (List (String × String))

/-- Python code-point lexicographic string order (`s1 <= s2`), the order
`sorted` uses on `str`. -/
def lexLe : FPath → FPath → Bool
  | [], _ => true
  | _ :: _, [] => false
  | a :: as, b :: bs =>
    if a < b then true
    else if b < a then false
    else lexLe as bs

/-- Insert into a lexicographically sorted list, keeping earlier-listed
elements first among equals (stability, as CPython's sort). -/
def strInsert (a : FPath) : List FPath → List FPath
  | [] => [a]
  | b :: bs => if lexLe a b then a :: b :: bs else b :: strInsert a bs

/-- `sorted(...)` on a list of Python strings (line 68): stable sort under
code-point lexicographic order. -/
def pySorted : List FPath → List FPath
  | [] => []
  | a :: rest => strInsert a (pySorted rest)

/-- `os.path.join(tmpdir, name)` for a relative `name`. -/
def inTmp (tmpdir name : FPath) : FPath := tmpdir ++ '/' :: name

/-- `os.path.join(tmpdir, f"{i}.jpg")` (line 51). -/
def jpgPath (tmpdir : FPath) (i : Nat) : FPath :=
  inTmp tmpdir (Nat.toDigits 10 i ++ ".jpg".data)

/-- `os.path.join(tmpdir, f"{i}.xml")` (line 52). -/
def xmlPath (tmpdir : FPath) (i : Nat) : FPath :=
  inTmp tmpdir (Nat.toDigits 10 i ++ ".xml".data)

/-- `os.path.join(tmpdir, f"{i}.pdf")` (line 53). -/
def pdfPath (tmpdir : FPath) (i : Nat) : FPath :=
  inTmp tmpdir (Nat.toDigits 10 i ++ ".pdf".data)

/-- `os.path.join(tmpdir, "merged.pdf")` (line 66). -/
def mergedPath (tmpdir : FPath) : FPath := inTmp tmpdir "merged.pdf".data

/-- First-match lookup in a Python-dict-as-association-list (also used to
fetch the single-page artifact stored at a path). -/
def alistLookup {α β : Type} [DecidableEq α] (k : α) : List (α × β) → Option β
  | [] => none
  | (k', v) :: rest => if k = k' then some v else alistLookup k rest

/-- One-key `dict.update`: replace the value if the key is present,
otherwise append the new binding (Python dict insertion-order semantics). -/
def dictUpdate (m : List (String × String)) (k v : String) : List (String × String) :=
  if m.any (fun p => p.1 = k) then
    m.map (fun p => if p.1 = k then (k, v) else p)
  else m ++ [(k, v)]

/-- `metdata.update({"/Producer": "docTR", "/Creator": "docTR"})`
(lines 79-85). -/
def metaStamped (m : List (String × String)) : List (String × String) :=
  dictUpdate (dictUpdate m "/Producer" "docTR") "/Creator" "docTR"

/-- The per-page loop (lines 50-64): for `i, (xml, img) in
enumerate(zip(xml_outputs, docs))`, save the JPEG, write the xml, run
`HocrTransform(..., dpi=300).to_pdf(...)`, and collect `pdf_path` (paired
here with the `(xml, img)` content the artifact renders). Any raised
exception aborts the loop and propagates. -/
def pageLoop (env : Env) (tmpdir : FPath) :
    Nat → List (Xml × Image) → List Event × Except PyErr (List (FPath × (Xml × Image)))
  | _, [] => ([], .ok [])
  | i, (x, img) :: rest =>
    match env.saveJpeg i with
    | .error e => ([], .error e)
    | .ok () =>
      match env.writeXml i with
      | .error e => ([.created (jpgPath tmpdir i)], .error e)
      | .ok () =>
        match env.hocrToPdf i with
        | .error e =>
          ([.created (jpgPath tmpdir i), .created (xmlPath tmpdir i),
            .hocrCalled 300 i], .error e)
        | .ok () =>
          match pageLoop env tmpdir (i + 1) rest with
          | (evs, r) =>
            (Event.created (jpgPath tmpdir i) :: Event.created (xmlPath tmpdir i) ::
              Event.hocrCalled 300 i :: Event.created (pdfPath tmpdir i) :: evs,
             match r with
             | .error e => .error e
             | .ok arts => .ok ((pdfPath tmpdir i, (x, img)) :: arts))

/-- Pages of the merged document (lines 67-70): `for pdf in
sorted(pdf_paths): merger.append(pdf)` — each single-page artifact is
fetched by its path, in Python-string-sorted path order. -/
def mergedPdfPages (arts : List (FPath × (Xml × Image))) : List (Xml × Image) :=
  (pySorted (arts.map Prod.fst)).filterMap (fun p => alistLookup p arts)

/-- Body of the `with TemporaryDirectory() as tmpdir:` block
(lines 48-93): run the page loop, merge in sorted-path order, stamp
metadata, and return the response; exceptions propagate to the caller
(which still runs the context-manager cleanup). -/
def withBody (env : Env) (tmpdir : FPath) (xmls : List Xml) (docs : List Image) :
    List Event × Except PyErr Outcome :=
  match pageLoop env tmpdir 0 (xmls.zip docs) with
  | (evs, .error e) => (evs, .error e)
  | (evs, .ok arts) =>
    match env.mergerWrite with
    | .error e => (evs, .error e)
    | .ok () =>
      (evs ++ [.created (mergedPath tmpdir)],
       .ok (.ok (mergedPdfPages arts)
              (metaStamped ((env.mergedMeta).getD []))
              "application/pdf"))

/-- The handler `perform_ocr` of `src/api/app/routes/ocr.py`, lines 26-93,
as a function from the collaborator behaviour `Env`, the uploaded `files`,
and the name the OS gave the temporary directory, to the event trace and
the HTTP outcome. -/
def perform_ocr (env : Env) (files : List UpFile) (tmpdir : FPath) :
    List Event × Outcome :=
  match env.getDocuments files with
  | .error (.valueError m) => ([], .clientError 400 m)
  | .error (.otherError m) => ([], .serverError (.otherError m))
  | .ok (content, _filenames) =>
    match env.initPredictor with
    | .error (.valueError m) => ([], .clientError 400 m)
    | .error (.otherError m) => ([], .serverError (.otherError m))
    | .ok () =>
      match env.predict content with
      | .error e => ([], .serverError e)
      | .ok out =>
        match env.exportAsXml out with
        | .error e => ([.inferredOn content], .serverError e)
        | .ok xml_outputs =>
          -- torch.cuda.empty_cache() (line 39) runs here, unconditionally
          -- on the straight-line path, not in a finally block.
          match files with
          | [] => ([.inferredOn content, .emptiedCudaCache],
                   .serverError (.otherError "IndexError"))
          | f0 :: _ =>
            -- dpi = 300; scale = dpi / 72.0 (lines 43-44)
            let dpi : Nat := 300
            let evs0 : List Event :=
              [.inferredOn content, .emptiedCudaCache, .rasterized dpi f0.bytes]
            match env.fromPdf f0.bytes with
            | .error e => (evs0, .serverError e)
            | .ok docs =>
              match withBody env tmpdir xml_outputs docs with
              | (evs, .error e) => (evs0 ++ evs ++ [.removedTmpdir], .serverError e)
              | (evs, .ok outc) => (evs0 ++ evs ++ [.removedTmpdir], outc)

/-- Modelled from the spec: `get_documents` lives in `app.utils`, which is
not under `src/`. Spec §6 gives the document-loader collaborator contract
("(file bytes, optional DPI-derived scale factor) → ordered sequence of
page raster images") applied to "multipart file upload(s)", so the
predictor's input is the loader's pages of every uploaded file, in upload
order. -/
def specGetDocuments (loader : Nat → List Image) (files : List UpFile) : List Image :=
  files.flatMap (fun f => loader f.bytes)

/-- An environment in which every collaborator call succeeds: the export
yields `xmls`, the rasterizer yields `docs`, the merged file carries
metadata `meta0`. Used to instantiate theorems at concrete inputs. -/
def okEnv (xmls : List Xml) (docs : List Image) (meta0 : Option (List (String × String))) : Env where
  getDocuments := fun _ => .ok (docs, ["upload.pdf"])
  initPredictor := .ok ()
  predict := fun _ => .ok 0
  exportAsXml := fun _ => .ok xmls
  fromPdf := fun _ => .ok docs
  saveJpeg := fun _ => .ok ()
  writeXml := fun _ => .ok ()
  hocrToPdf := fun _ => .ok ()
  mergerWrite := .ok ()
  mergedMeta := meta0

/-- Fixed sample temporary-directory name used for concrete runs. -/
def tdir : FPath := ['/', 't']

/-- Boolean prefix test on character lists. -/
def chPre : List Char → List Char → Bool
  | [], _ => true
  | _ :: _, [] => false
  | a :: as, b :: bs => a == b && chPre as bs

/-- `p` names a file inside directory `tmpdir` (its name starts with
`tmpdir` followed by the path separator). -/
def isUnder (tmpdir p : FPath) : Bool := chPre (tmpdir ++ ['/']) p

/-- Filesystem effect of a trace: `created p` adds the file `p`;
`removedTmpdir` (the `TemporaryDirectory` cleanup) deletes every file
under `tmpdir`. The result is the set of files existing afterwards. -/
def survivingFiles (tmpdir : FPath) : List Event → List FPath → List FPath
  | [], fs => fs
  | .created p :: rest, fs => survivingFiles tmpdir rest (fs ++ [p])
  | .removedTmpdir :: rest, fs =>
    survivingFiles tmpdir rest (fs.filter (fun p => ! isUnder tmpdir p))
  | _ :: rest, fs => survivingFiles tmpdir rest fs

/-- The artifact list the page loop produces when every per-page call
succeeds: artifact `i` lives at `pdfPath tmpdir i` and renders pair `i`. -/
def artsOf (tmpdir : FPath) : Nat → List (Xml × Image) → List (FPath × (Xml × Image))
  | _, [] => []
  | i, pr :: rest => (pdfPath tmpdir i, pr) :: artsOf tmpdir (i + 1) rest

/-- Shape invariant of the events `perform_ocr` can emit: the scale given
to `DocumentFile.from_pdf` is derived from DPI 300, every `HocrTransform`
is constructed with DPI 300, and every file is created inside `tmpdir`. -/
def evWellFormed (tmpdir : FPath) : Event → Prop
  | .rasterized d _ => d = 300
  | .hocrCalled d _ => d = 300
  | .created p => ∃ name, p = inTmp tmpdir name
  | _ => True

/-- Environment whose `out.export_as_xml()` call raises (a non-`ValueError`
failure after the inference call completed). -/
def envExportFails : Env :=
  { okEnv [0] [100] none with
    exportAsXml := fun _ => .error (.otherError "export_as_xml failed") }

/-- Environment whose `get_documents` call raises `ValueError`
(malformed/unreadable upload). -/
def envBadUpload : Env :=
  { okEnv [] [] none with
    getDocuments := fun _ => .error (.valueError "invalid file format") }

/-- A two-file upload: file bytes 1 and file bytes 2. -/
def twoFiles : List UpFile := [⟨1⟩, ⟨2⟩]

/-- A loader rasterizing file bytes 1 to page image 100 and any other
file to page image 200. -/
def demoLoader : Nat → List Image := fun b => if b = 1 then [100] else [200]

/-- Environment for a two-file upload under `demoLoader`, with one markup
payload exported; every call succeeds. -/
def envTwoFiles : Env :=
  { okEnv [0] [100] none with
    getDocuments := fun fs => .ok (specGetDocuments demoLoader fs, ["a.pdf", "b.pdf"])
    fromPdf := fun b => .ok (demoLoader b) }

/-! ### Helper lemmas -/

theorem length_strInsert (a : FPath) (l : List FPath) :
    (strInsert a l).length = l.length + 1 := by
  induction l with
  | nil => rfl
  | cons b bs ih =>
    simp only [strInsert]
    split
    · simp
    · simp [ih]

theorem mem_strInsert {p a : FPath} {l : List FPath} :
    p ∈ strInsert a l ↔ p = a ∨ p ∈ l := by
  induction l with
  | nil => simp [strInsert]
  | cons b bs ih =>
    simp only [strInsert]
    split
    · simp [or_assoc]
    · simp only [List.mem_cons, ih]
      tauto

theorem length_pySorted (l : List FPath) : (pySorted l).length = l.length := by
  induction l with
  | nil => rfl
  | cons a rest ih => simp [pySorted, length_strInsert, ih]

theorem mem_pySorted {p : FPath} {l : List FPath} : p ∈ pySorted l ↔ p ∈ l := by
  induction l with
  | nil => simp [pySorted]
  | cons a rest ih => simp [pySorted, mem_strInsert, ih]


theorem alistLookup_isSome_of_mem {α β : Type} [DecidableEq α] {k : α}
    {l : List (α × β)} (h : k ∈ l.map Prod.fst) : (alistLookup k l).isSome := by
  induction l with
  | nil => simp at h
  | cons p rest ih =>
    obtain ⟨k1, v1⟩ := p
    simp only [alistLookup]
    by_cases hk : k = k1
    · simp [hk]
    · rw [if_neg hk]
      apply ih
      simp only [List.map_cons, List.mem_cons] at h
      rcases h with h | h
      · exact absurd h hk
      · exact h

theorem alistLookup_mem_values {α β : Type} [DecidableEq α] {k : α} {v : β}
    {l : List (α × β)} (h : alistLookup k l = some v) : v ∈ l.map Prod.snd := by
  induction l with
  | nil => simp [alistLookup] at h
  | cons p rest ih =>
    obtain ⟨k1, v1⟩ := p
    simp only [alistLookup] at h
    by_cases hk : k = k1
    · rw [if_pos hk] at h
      simp only [Option.some.injEq] at h
      simp [h]
    · rw [if_neg hk] at h
      simp [ih h]

theorem length_filterMap_of_isSome {α β : Type} (f : α → Option β) (l : List α)
    (h : ∀ x ∈ l, (f x).isSome) : (l.filterMap f).length = l.length := by
  induction l with
  | nil => rfl
  | cons a rest ih =>
    have ha := h a (by simp)
    obtain ⟨b, hb⟩ := Option.isSome_iff_exists.mp ha
    simp only [List.filterMap_cons, hb, List.length_cons]
    rw [ih (fun x hx => h x (by simp [hx]))]

theorem length_mergedPdfPages (arts : List (FPath × (Xml × Image))) :
    (mergedPdfPages arts).length = arts.length := by
  unfold mergedPdfPages
  rw [length_filterMap_of_isSome, length_pySorted, List.length_map]
  intro p hp
  exact alistLookup_isSome_of_mem (mem_pySorted.mp hp)

theorem mem_mergedPdfPages {x : Xml × Image} {arts : List (FPath × (Xml × Image))}
    (h : x ∈ mergedPdfPages arts) : x ∈ arts.map Prod.snd := by
  unfold mergedPdfPages at h
  obtain ⟨p, _, hp⟩ := List.mem_filterMap.mp h
  exact alistLookup_mem_values hp

theorem length_artsOf (tmpdir : FPath) (i : Nat) (pairs : List (Xml × Image)) :
    (artsOf tmpdir i pairs).length = pairs.length := by
  induction pairs generalizing i with
  | nil => rfl
  | cons pr rest ih => simp [artsOf, ih]

theorem alistLookup_map_stamp {k v : String} :
    ∀ m : List (String × String), (m.any fun p => decide (p.1 = k)) = true →
      alistLookup k (m.map (fun p => if p.1 = k then (k, v) else p)) = some v := by
  intro m
  induction m with
  | nil => simp
  | cons p rest ih =>
    obtain ⟨k1, v1⟩ := p
    intro hany
    simp only [List.map_cons]
    by_cases h1 : k1 = k
    · rw [if_pos h1]
      simp [alistLookup]
    · rw [if_neg h1]
      have hk : ¬ k = k1 := fun h => h1 h.symm
      simp only [List.any_cons, decide_eq_true_eq, Bool.or_eq_true] at hany
      rcases hany with hany | hany
      · exact absurd hany h1
      · simp only [alistLookup, if_neg hk]
        exact ih (by simpa using hany)

theorem alistLookup_append_one {k v : String} :
    ∀ m : List (String × String), (m.any fun p => decide (p.1 = k)) = false →
      alistLookup k (m ++ [(k, v)]) = some v := by
  intro m
  induction m with
  | nil => simp [alistLookup]
  | cons p rest ih =>
    obtain ⟨k1, v1⟩ := p
    intro hany
    simp only [List.any_cons, Bool.or_eq_false_iff, decide_eq_false_iff_not] at hany
    have hk : ¬ k = k1 := fun h => hany.1 h.symm
    simp only [List.cons_append, alistLookup, if_neg hk]
    exact ih (by simpa using hany.2)

theorem alistLookup_map_stamp_other {k k' v : String} (hne : k' ≠ k) :
    ∀ m : List (String × String),
      alistLookup k' (m.map (fun p => if p.1 = k then (k, v) else p)) = alistLookup k' m := by
  intro m
  induction m with
  | nil => rfl
  | cons p rest ih =>
    obtain ⟨k1, v1⟩ := p
    simp only [List.map_cons]
    by_cases h1 : k1 = k
    · rw [if_pos h1]
      have h2 : ¬ k' = k1 := fun h => hne (h.trans h1)
      simp only [alistLookup, if_neg hne, if_neg h2]
      exact ih
    · rw [if_neg h1]
      by_cases h3 : k' = k1
      · simp [alistLookup, if_pos h3]
      · simp only [alistLookup, if_neg h3]
        exact ih

theorem alistLookup_append_one_other {k k' v : String} (hne : k' ≠ k) :
    ∀ m : List (String × String),
      alistLookup k' (m ++ [(k, v)]) = alistLookup k' m := by
  intro m
  induction m with
  | nil => simp [alistLookup, if_neg hne]
  | cons p rest ih =>
    obtain ⟨k1, v1⟩ := p
    simp only [List.cons_append, alistLookup]
    split
    · rfl
    · exact ih

theorem alistLookup_dictUpdate_self (m : List (String × String)) (k v : String) :
    alistLookup k (dictUpdate m k v) = some v := by
  unfold dictUpdate
  cases hb : (m.any fun p => decide (p.1 = k)) with
  | true => simpa [hb] using alistLookup_map_stamp m hb
  | false => simpa [hb] using alistLookup_append_one m hb

theorem alistLookup_dictUpdate_other {k k' : String} (hne : k' ≠ k)
    (m : List (String × String)) (v : String) :
    alistLookup k' (dictUpdate m k v) = alistLookup k' m := by
  unfold dictUpdate
  split
  · exact alistLookup_map_stamp_other hne m
  · exact alistLookup_append_one_other hne m

theorem pageLoop_ok (env : Env) (tmpdir : FPath)
    (hs : ∀ j, env.saveJpeg j = .ok ()) (hw : ∀ j, env.writeXml j = .ok ())
    (hh : ∀ j, env.hocrToPdf j = .ok ()) :
    ∀ (pairs : List (Xml × Image)) (i : Nat),
      (pageLoop env tmpdir i pairs).2 = .ok (artsOf tmpdir i pairs) := by
  intro pairs
  induction pairs with
  | nil => intro i; rfl
  | cons pr rest ih =>
    intro i
    obtain ⟨x, img⟩ := pr
    simp only [pageLoop, hs i, hw i, hh i]
    rcases hrec : pageLoop env tmpdir (i + 1) rest with ⟨evs, r⟩
    have hr := ih (i + 1)
    rw [hrec] at hr
    simp only at hr
    simp [hr, artsOf]

theorem pageLoop_arts_sub (env : Env) (tmpdir : FPath) :
    ∀ (pairs : List (Xml × Image)) (i : Nat) (arts : List (FPath × (Xml × Image))),
      (pageLoop env tmpdir i pairs).2 = .ok arts → ∀ a ∈ arts, a.2 ∈ pairs := by
  intro pairs
  induction pairs with
  | nil =>
    intro i arts h a ha
    simp only [pageLoop] at h
    cases h
    simp at ha
  | cons pr rest ih =>
    intro i arts h a ha
    obtain ⟨x, img⟩ := pr
    simp only [pageLoop] at h
    cases hsj : env.saveJpeg i with
    | error e => simp [hsj] at h
    | ok u =>
      cases u
      cases hwx : env.writeXml i with
      | error e => simp [hsj, hwx] at h
      | ok u =>
        cases u
        cases hhp : env.hocrToPdf i with
        | error e => simp [hsj, hwx, hhp] at h
        | ok u =>
          cases u
          rcases hrec : pageLoop env tmpdir (i + 1) rest with ⟨evs, r⟩
          rw [hsj, hwx, hhp, hrec] at h
          simp only at h
          cases r with
          | error e => simp at h
          | ok arts' =>
            simp only [Except.ok.injEq] at h
            subst h
            rcases List.mem_cons.mp ha with ha | ha
            · subst ha
              simp
            · exact List.mem_cons_of_mem _ (ih (i + 1) arts' (by rw [hrec]) a ha)

theorem pageLoop_events (env : Env) (tmpdir : FPath) :
    ∀ (pairs : List (Xml × Image)) (i : Nat) (ev : Event),
      ev ∈ (pageLoop env tmpdir i pairs).1 →
      (∃ name, ev = .created (inTmp tmpdir name)) ∨ ∃ j, ev = .hocrCalled 300 j := by
  intro pairs
  induction pairs with
  | nil =>
    intro i ev hev
    simp [pageLoop] at hev
  | cons pr rest ih =>
    intro i ev hev
    obtain ⟨x, img⟩ := pr
    simp only [pageLoop] at hev
    cases hsj : env.saveJpeg i with
    | error e => simp [hsj] at hev
    | ok u =>
      cases u
      cases hwx : env.writeXml i with
      | error e =>
        simp [hsj, hwx] at hev
        exact Or.inl ⟨_, by rw [hev, jpgPath]⟩
      | ok u =>
        cases u
        cases hhp : env.hocrToPdf i with
        | error e =>
          simp [hsj, hwx, hhp] at hev
          rcases hev with hev | hev | hev
          · exact Or.inl ⟨_, by rw [hev, jpgPath]⟩
          · exact Or.inl ⟨_, by rw [hev, xmlPath]⟩
          · exact Or.inr ⟨i, hev⟩
        | ok u =>
          cases u
          rcases hrec : pageLoop env tmpdir (i + 1) rest with ⟨evs, r⟩
          rw [hsj, hwx, hhp, hrec] at hev
          simp only [List.mem_cons] at hev
          rcases hev with hev | hev | hev | hev | hev
          · exact Or.inl ⟨_, by rw [hev, jpgPath]⟩
          · exact Or.inl ⟨_, by rw [hev, xmlPath]⟩
          · exact Or.inr ⟨i, hev⟩
          · exact Or.inl ⟨_, by rw [hev, pdfPath]⟩
          · exact ih (i + 1) ev (by rw [hrec]; exact hev)

theorem withBody_events (env : Env) (tmpdir : FPath) (xmls : List Xml) (docs : List Image) :
    ∀ ev ∈ (withBody env tmpdir xmls docs).1,
      (∃ name, ev = .created (inTmp tmpdir name)) ∨ ∃ j, ev = .hocrCalled 300 j := by
  intro ev hev
  unfold withBody at hev
  rcases hpl : pageLoop env tmpdir 0 (xmls.zip docs) with ⟨evs, r⟩
  rw [hpl] at hev
  cases r with
  | error e =>
    exact pageLoop_events env tmpdir _ 0 ev (by rw [hpl]; exact hev)
  | ok arts =>
    cases hm : env.mergerWrite with
    | error e =>
      rw [hm] at hev
      exact pageLoop_events env tmpdir _ 0 ev (by rw [hpl]; exact hev)
    | ok u =>
      cases u
      rw [hm] at hev
      simp only [List.mem_append, List.mem_singleton] at hev
      rcases hev with hev | hev
      · exact pageLoop_events env tmpdir _ 0 ev (by rw [hpl]; exact hev)
      · exact Or.inl ⟨_, by rw [hev, mergedPath]⟩

theorem withBody_ok (env : Env) (tmpdir : FPath) (xmls : List Xml) (docs : List Image)
    (pages : List (Xml × Image)) (meta : List (String × String)) (mt : String)
    (h : (withBody env tmpdir xmls docs).2 = .ok (.ok pages meta mt)) :
    meta = metaStamped ((env.mergedMeta).getD []) ∧ mt = "application/pdf" ∧
    ∃ arts, (pageLoop env tmpdir 0 (xmls.zip docs)).2 = .ok arts ∧
      pages = mergedPdfPages arts := by
  unfold withBody at h
  rcases hpl : pageLoop env tmpdir 0 (xmls.zip docs) with ⟨evs, r⟩
  rw [hpl] at h
  cases r with
  | error e => simp at h
  | ok arts =>
    cases hm : env.mergerWrite with
    | error e => rw [hm] at h; simp at h
    | ok u =>
      cases u
      rw [hm] at h
      simp only [Except.ok.injEq, Outcome.ok.injEq] at h
      exact ⟨h.2.1.symm, h.2.2.symm, arts, by simp [hpl], h.1.symm⟩

theorem perform_ocr_ok_inv (env : Env) (files : List UpFile) (tmpdir : FPath)
    (pages : List (Xml × Image)) (meta : List (String × String)) (mt : String)
    (h : (perform_ocr env files tmpdir).2 = .ok pages meta mt) :
    meta = metaStamped ((env.mergedMeta).getD []) ∧ mt = "application/pdf" ∧
    ∃ (f0 : UpFile) (rest : List UpFile) (docs : List Image) (xmls : List Xml)
      (arts : List (FPath × (Xml × Image))),
      files = f0 :: rest ∧ env.fromPdf f0.bytes = .ok docs ∧
      (pageLoop env tmpdir 0 (xmls.zip docs)).2 = .ok arts ∧
      pages = mergedPdfPages arts := by
  unfold perform_ocr at h
  cases hgd : env.getDocuments files with
  | error e => cases e <;> simp [hgd] at h
  | ok cn =>
    obtain ⟨content, ns⟩ := cn
    cases hip : env.initPredictor with
    | error e => cases e <;> simp [hgd, hip] at h
    | ok u =>
      cases u
      cases hp : env.predict content with
      | error e => simp [hgd, hip, hp] at h
      | ok out =>
        cases hx : env.exportAsXml out with
        | error e => simp [hgd, hip, hp, hx] at h
        | ok xmls =>
          cases files with
          | nil => simp [hgd, hip, hp, hx] at h
          | cons f0 rest =>
            cases hfp : env.fromPdf f0.bytes with
            | error e => simp [hgd, hip, hp, hx, hfp] at h
            | ok docs =>
              rcases hwb : withBody env tmpdir xmls docs with ⟨evs, r⟩
              cases r with
              | error e => simp [hgd, hip, hp, hx, hfp, hwb] at h
              | ok outc =>
                simp only [hgd, hip, hp, hx, hfp, hwb] at h
                have hb : (withBody env tmpdir xmls docs).2 = .ok (.ok pages meta mt) := by
                  rw [hwb]
                  simpa using h
                obtain ⟨hmeta, hmt, arts, hpl, hpages⟩ :=
                  withBody_ok env tmpdir xmls docs pages meta mt hb
                exact ⟨hmeta, hmt, f0, rest, docs, xmls, arts, rfl, hfp, hpl, hpages⟩

theorem trace_wf (env : Env) (files : List UpFile) (tmpdir : FPath) :
    ∀ ev ∈ (perform_ocr env files tmpdir).1, evWellFormed tmpdir ev := by
  intro ev hev
  unfold perform_ocr at hev
  cases hgd : env.getDocuments files with
  | error e => cases e <;> simp [hgd] at hev
  | ok cn =>
    obtain ⟨content, ns⟩ := cn
    cases hip : env.initPredictor with
    | error e => cases e <;> simp [hgd, hip] at hev
    | ok u =>
      cases u
      cases hp : env.predict content with
      | error e => simp [hgd, hip, hp] at hev
      | ok out =>
        cases hx : env.exportAsXml out with
        | error e =>
          simp only [hgd, hip, hp, hx, List.mem_singleton] at hev
          subst hev
          trivial
        | ok xmls =>
          cases files with
          | nil =>
            simp only [hgd, hip, hp, hx, List.mem_cons, List.not_mem_nil, or_false] at hev
            rcases hev with hev | hev <;> subst hev <;> trivial
          | cons f0 rest =>
            cases hfp : env.fromPdf f0.bytes with
            | error e =>
              simp only [hgd, hip, hp, hx, hfp, List.mem_cons, List.not_mem_nil,
                or_false] at hev
              rcases hev with hev | hev | hev <;> subst hev
              · trivial
              · trivial
              · rfl
            | ok docs =>
              rcases hwb : withBody env tmpdir xmls docs with ⟨evs, r⟩
              have hbody : ∀ e ∈ evs, evWellFormed tmpdir e := by
                intro e he
                have hw := withBody_events env tmpdir xmls docs e (by rw [hwb]; exact he)
                rcases hw with ⟨name, rfl⟩ | ⟨j, rfl⟩
                · exact ⟨name, rfl⟩
                · rfl
              have hmem : ev ∈ Event.inferredOn content :: Event.emptiedCudaCache ::
                  Event.rasterized 300 f0.bytes :: (evs ++ [Event.removedTmpdir]) := by
                cases r with
                | error e' =>
                  simp only [hgd, hip, hp, hx, hfp, hwb] at hev
                  simpa using hev
                | ok outc =>
                  simp only [hgd, hip, hp, hx, hfp, hwb] at hev
                  simpa using hev
              simp only [List.mem_cons, List.mem_append, List.mem_singleton,
                List.not_mem_nil, or_false] at hmem
              rcases hmem with hm | hm | hm | hm | hm
              · subst hm; trivial
              · subst hm; trivial
              · subst hm; rfl
              · exact hbody ev hm
              · subst hm; trivial

theorem chPre_append (l m : List Char) : chPre l (l ++ m) = true := by
  induction l with
  | nil => rfl
  | cons a as ih => simp [chPre, ih]

theorem isUnder_inTmp (tmpdir name : FPath) : isUnder tmpdir (inTmp tmpdir name) = true := by
  have h : inTmp tmpdir name = (tmpdir ++ ['/']) ++ name := by simp [inTmp]
  rw [isUnder, h]
  exact chPre_append _ _

theorem survivingFiles_append (tmpdir : FPath) :
    ∀ (l1 l2 : List Event) (fs : List FPath),
      survivingFiles tmpdir (l1 ++ l2) fs =
        survivingFiles tmpdir l2 (survivingFiles tmpdir l1 fs) := by
  intro l1
  induction l1 with
  | nil => intro l2 fs; rfl
  | cons e rest ih =>
    intro l2 fs
    cases e <;> simp only [List.cons_append, survivingFiles] <;> exact ih l2 _

theorem survivingFiles_under (tmpdir : FPath) :
    ∀ (evs : List Event) (fs : List FPath),
      (∀ p, Event.created p ∈ evs → isUnder tmpdir p = true) →
      (∀ f ∈ fs, isUnder tmpdir f = true) →
      ∀ f ∈ survivingFiles tmpdir evs fs, isUnder tmpdir f = true := by
  intro evs
  induction evs with
  | nil =>
    intro fs _ hfs f hf
    exact hfs f hf
  | cons e rest ih =>
    intro fs hev hfs f hf
    cases e with
    | created p =>
      refine ih (fs ++ [p]) (fun q hq => hev q (List.mem_cons_of_mem _ hq)) ?_ f
        (by simpa [survivingFiles] using hf)
      intro g hg
      rcases List.mem_append.mp hg with hg | hg
      · exact hfs g hg
      · rw [List.mem_singleton.mp hg]
        exact hev p (List.mem_cons_self _ _)
    | removedTmpdir =>
      refine ih (fs.filter (fun q => ! isUnder tmpdir q))
        (fun q hq => hev q (List.mem_cons_of_mem _ hq)) ?_ f
        (by simpa [survivingFiles] using hf)
      intro g hg
      exact hfs g (List.mem_of_mem_filter hg)
    | inferredOn c =>
      exact ih fs (fun q hq => hev q (List.mem_cons_of_mem _ hq)) hfs f
        (by simpa [survivingFiles] using hf)
    | emptiedCudaCache =>
      exact ih fs (fun q hq => hev q (List.mem_cons_of_mem _ hq)) hfs f
        (by simpa [survivingFiles] using hf)
    | rasterized d b =>
      exact ih fs (fun q hq => hev q (List.mem_cons_of_mem _ hq)) hfs f
        (by simpa [survivingFiles] using hf)
    | hocrCalled d j =>
      exact ih fs (fun q hq => hev q (List.mem_cons_of_mem _ hq)) hfs f
        (by simpa [survivingFiles] using hf)

theorem survivingFiles_body (tmpdir : FPath) (evs : List Event)
    (hcr : ∀ p, Event.created p ∈ evs → isUnder tmpdir p = true) :
    survivingFiles tmpdir (evs ++ [Event.removedTmpdir]) [] = [] := by
  rw [survivingFiles_append]
  have hall := survivingFiles_under tmpdir evs [] hcr (by simp)
  simp only [survivingFiles]
  apply List.filter_eq_nil_iff.mpr
  intro a ha
  simp [hall a ha]

theorem survivingFiles_perform_ocr (env : Env) (files : List UpFile) (tmpdir : FPath) :
    survivingFiles tmpdir (perform_ocr env files tmpdir).1 [] = [] := by
  unfold perform_ocr
  cases hgd : env.getDocuments files with
  | error e => cases e <;> simp [hgd, survivingFiles]
  | ok cn =>
    obtain ⟨content, ns⟩ := cn
    cases hip : env.initPredictor with
    | error e => cases e <;> simp [hgd, hip, survivingFiles]
    | ok u =>
      cases u
      cases hp : env.predict content with
      | error e => simp [hgd, hip, hp, survivingFiles]
      | ok out =>
        cases hx : env.exportAsXml out with
        | error e => simp [hgd, hip, hp, hx, survivingFiles]
        | ok xmls =>
          cases files with
          | nil => simp [hgd, hip, hp, hx, survivingFiles]
          | cons f0 rest =>
            cases hfp : env.fromPdf f0.bytes with
            | error e => simp [hgd, hip, hp, hx, hfp, survivingFiles]
            | ok docs =>
              rcases hwb : withBody env tmpdir xmls docs with ⟨evs, r⟩
              have hcr : ∀ p, Event.created p ∈ evs → isUnder tmpdir p = true := by
                intro p hp'
                have hw := withBody_events env tmpdir xmls docs _ (by rw [hwb]; exact hp')
                rcases hw with ⟨name, hname⟩ | ⟨j, hj⟩
                · cases hname
                  exact isUnder_inTmp tmpdir name
                · cases hj
              have key : survivingFiles tmpdir
                  (Event.inferredOn content :: Event.emptiedCudaCache ::
                    Event.rasterized 300 f0.bytes :: (evs ++ [Event.removedTmpdir])) [] = [] := by
                have h0 : survivingFiles tmpdir
                    (Event.inferredOn content :: Event.emptiedCudaCache ::
                      Event.rasterized 300 f0.bytes :: (evs ++ [Event.removedTmpdir])) [] =
                    survivingFiles tmpdir (evs ++ [Event.removedTmpdir]) [] := by
                  simp [survivingFiles]
                rw [h0]
                exact survivingFiles_body tmpdir evs hcr
              cases r with
              | error e => simpa [hgd, hip, hp, hx, hfp, hwb] using key
              | ok outc => simpa [hgd, hip, hp, hx, hfp, hwb] using key

/-! ### Claim theorems -/

/-- Claim C1. The claim states that for every valid N-page document the
returned PDF has N pages with output order equal to source order. The code
violates the order part: at a concrete 11-page document (markup payloads
0..10, page images 100..110, every external call succeeding), the merge
step `sorted(pdf_paths)` orders the artifact paths lexicographically, so
the output pages come in source order 0, 1, 10, 2, ..., 9 instead of
0, 1, 2, ..., 10. The run is evaluated here: the handler returns a
200 PDF whose page list differs from the source-ordered page list. -/
theorem claim1_eleven_page_order_bug :
    (perform_ocr (okEnv (List.range 11) ((List.range 11).map (fun i => 100 + i)) none)
        [⟨5⟩] tdir).2 =
      .ok [(0, 100), (1, 101), (10, 110), (2, 102), (3, 103), (4, 104), (5, 105),
           (6, 106), (7, 107), (8, 108), (9, 109)]
        [("/Producer", "docTR"), ("/Creator", "docTR")] "application/pdf" ∧
    [((0 : Xml), (100 : Image)), (1, 101), (10, 110), (2, 102), (3, 103), (4, 104), (5, 105),
     (6, 106), (7, 107), (8, 108), (9, 109)] ≠
      (List.range 11).map (fun i => ((i : Xml), (100 + i : Image))) := by
  constructor
  · decide
  · decide

/-- Claim C2. The claim states that the artifact sort before concatenation
is by numeric page index, placing page 2 before page 10 for an 11-page
document. The code sorts the path strings (`sorted(pdf_paths)`, line 68),
which is lexicographic: for 11 pages the sorted order places the page-10
artifact before the page-2 artifact, and the sorted list differs from the
numeric-index order. -/
theorem claim2_sort_is_lexicographic :
    pySorted ((List.range 11).map (pdfPath tdir)) =
      [pdfPath tdir 0, pdfPath tdir 1, pdfPath tdir 10, pdfPath tdir 2, pdfPath tdir 3,
       pdfPath tdir 4, pdfPath tdir 5, pdfPath tdir 6, pdfPath tdir 7, pdfPath tdir 8,
       pdfPath tdir 9] ∧
    pySorted ((List.range 11).map (pdfPath tdir)) ≠ (List.range 11).map (pdfPath tdir) := by
  constructor
  · decide
  · decide

/-- Claim C3, counterexample. With two markup payloads but a single page
image — mismatched counts — the handler does not raise an invalid-input
error: `zip` silently truncates and a one-page 200 PDF is returned. -/
theorem claim3_counterexample :
    (perform_ocr (okEnv [0, 1] [100] none) [⟨5⟩] tdir).2 =
      .ok [(0, 100)] [("/Producer", "docTR"), ("/Creator", "docTR")] "application/pdf" := by
  decide

/-- Claim C3, amended. `perform_ocr` performs no count check: it zips the
markup payloads with the page images, silently truncating to the shorter
sequence, and (when the remaining calls succeed) returns a 200 PDF with
`min` pages instead of failing. -/
theorem claim3_amended (env : Env) (f0 : UpFile) (rest : List UpFile) (tmpdir : FPath)
    (content : List Image) (ns : List String) (out : Nat) (xmls : List Xml)
    (docs : List Image)
    (hgd : env.getDocuments (f0 :: rest) = .ok (content, ns))
    (hip : env.initPredictor = .ok ())
    (hp : env.predict content = .ok out)
    (hx : env.exportAsXml out = .ok xmls)
    (hfp : env.fromPdf f0.bytes = .ok docs)
    (hs : ∀ j, env.saveJpeg j = .ok ()) (hw : ∀ j, env.writeXml j = .ok ())
    (hh : ∀ j, env.hocrToPdf j = .ok ()) (hm : env.mergerWrite = .ok ()) :
    (perform_ocr env (f0 :: rest) tmpdir).2 =
      .ok (mergedPdfPages (artsOf tmpdir 0 (xmls.zip docs)))
        (metaStamped ((env.mergedMeta).getD [])) "application/pdf" ∧
    (mergedPdfPages (artsOf tmpdir 0 (xmls.zip docs))).length =
      min xmls.length docs.length := by
  constructor
  · have hpl := pageLoop_ok env tmpdir hs hw hh (xmls.zip docs) 0
    rcases hpl2 : pageLoop env tmpdir 0 (xmls.zip docs) with ⟨evs, r⟩
    rw [hpl2] at hpl
    simp only at hpl
    subst hpl
    unfold perform_ocr withBody
    simp [hgd, hip, hp, hx, hfp, hm, hpl2]
  · rw [length_mergedPdfPages, length_artsOf, List.length_zip]

/-- Claim C3, amended, witness at the counterexample input: two markup
payloads, one image, everything succeeding. -/
theorem claim3_amended_witness :
    (perform_ocr (okEnv [0, 1] [100] none) [⟨5⟩] tdir).2 =
      .ok (mergedPdfPages (artsOf tdir 0 (([0, 1] : List Xml).zip ([100] : List Image))))
        (metaStamped (((okEnv [0, 1] [100] none).mergedMeta).getD [])) "application/pdf" ∧
    (mergedPdfPages (artsOf tdir 0 (([0, 1] : List Xml).zip ([100] : List Image)))).length =
      min ([0, 1] : List Xml).length ([100] : List Image).length :=
  claim3_amended (okEnv [0, 1] [100] none) ⟨5⟩ [] tdir [100] ["upload.pdf"] 0 [0, 1] [100]
    rfl rfl rfl rfl rfl (fun _ => rfl) (fun _ => rfl) (fun _ => rfl) rfl

/-- Claim C4, counterexample. For a document yielding zero pages the
handler does not raise an invalid-input error: the loop body runs zero
times and a 200 response with a zero-page PDF body is returned. -/
theorem claim4_counterexample :
    (perform_ocr (okEnv [] [] (some [])) [⟨7⟩] tdir).2 =
      .ok [] [("/Producer", "docTR"), ("/Creator", "docTR")] "application/pdf" := by
  decide

/-- Claim C4, amended. For a zero-page document (the rasterizer returns no
images) `perform_ocr` raises no error: it merges nothing and, provided the
external merger can write an empty document, returns HTTP 200 with a
zero-page PDF. -/
theorem claim4_amended (env : Env) (f0 : UpFile) (rest : List UpFile) (tmpdir : FPath)
    (content : List Image) (ns : List String) (out : Nat) (xmls : List Xml)
    (hgd : env.getDocuments (f0 :: rest) = .ok (content, ns))
    (hip : env.initPredictor = .ok ())
    (hp : env.predict content = .ok out)
    (hx : env.exportAsXml out = .ok xmls)
    (hfp : env.fromPdf f0.bytes = .ok ([] : List Image))
    (hm : env.mergerWrite = .ok ()) :
    (perform_ocr env (f0 :: rest) tmpdir).2 =
      .ok [] (metaStamped ((env.mergedMeta).getD [])) "application/pdf" := by
  unfold perform_ocr withBody
  simp [hgd, hip, hp, hx, hfp, hm, pageLoop, mergedPdfPages, pySorted]

/-- Claim C4, amended, witness: the concrete zero-page run. -/
theorem claim4_amended_witness :
    (perform_ocr (okEnv [] [] (some [])) [⟨7⟩] tdir).2 =
      .ok [] (metaStamped (((okEnv [] [] (some [])).mergedMeta).getD [])) "application/pdf" :=
  claim4_amended (okEnv [] [] (some [])) ⟨7⟩ [] tdir [] ["upload.pdf"] 0 []
    rfl rfl rfl rfl rfl rfl

/-- Claim C5, counterexample. The claim states the accelerator cache is
released on every path where the inference call completes. In the run
where `predictor(content)` returns but `out.export_as_xml()` then raises,
the handler propagates the exception before reaching
`torch.cuda.empty_cache()` (line 39 is straight-line code, not a
`finally`): the trace records the completed inference and no cache
release. -/
theorem claim5_counterexample :
    Event.inferredOn [100] ∈ (perform_ocr envExportFails [⟨5⟩] tdir).1 ∧
    Event.emptiedCudaCache ∉ (perform_ocr envExportFails [⟨5⟩] tdir).1 := by
  constructor
  · decide
  · decide

/-- Claim C5, amended. `torch.cuda.empty_cache()` runs exactly when the
XML export following the inference call also completes: on every such
path the release happens before rasterization and assembly, so any later
failure still has the cache emptied; a failure inside `export_as_xml`
itself returns without releasing. -/
theorem claim5_amended (env : Env) (files : List UpFile) (tmpdir : FPath)
    (content : List Image) (ns : List String) (out : Nat) (xmls : List Xml)
    (hgd : env.getDocuments files = .ok (content, ns))
    (hip : env.initPredictor = .ok ())
    (hp : env.predict content = .ok out)
    (hx : env.exportAsXml out = .ok xmls) :
    Event.emptiedCudaCache ∈ (perform_ocr env files tmpdir).1 := by
  unfold perform_ocr
  simp only [hgd, hip, hp, hx]
  cases files with
  | nil => simp
  | cons f0 rest =>
    cases hfp : env.fromPdf f0.bytes with
    | error e => simp [hfp]
    | ok docs =>
      rcases hwb : withBody env tmpdir xmls docs with ⟨evs, r⟩
      cases r <;> simp [hfp, hwb]

/-- Claim C5, amended, witness: a fully successful one-page run releases
the cache. -/
theorem claim5_amended_witness :
    Event.emptiedCudaCache ∈ (perform_ocr (okEnv [0] [100] none) [⟨5⟩] tdir).1 :=
  claim5_amended (okEnv [0] [100] none) [⟨5⟩] tdir [100] ["upload.pdf"] 0 [0]
    rfl rfl rfl rfl

/-- Claim C6. Whenever `perform_ocr` returns a 200 PDF, its metadata
dictionary maps `/Producer` and `/Creator` to `"docTR"`, and every other
key has exactly the value it had in the merged document's pre-existing
metadata (`reader.metadata or {}`, lines 79-85). -/
theorem claim6_metadata_stamp (env : Env) (files : List UpFile) (tmpdir : FPath)
    (pages : List (Xml × Image)) (meta : List (String × String)) (mt : String)
    (h : (perform_ocr env files tmpdir).2 = .ok pages meta mt) :
    alistLookup "/Producer" meta = some "docTR" ∧
    alistLookup "/Creator" meta = some "docTR" ∧
    ∀ k, k ≠ "/Producer" → k ≠ "/Creator" →
      alistLookup k meta = alistLookup k ((env.mergedMeta).getD []) := by
  obtain ⟨hmeta, -, -⟩ := perform_ocr_ok_inv env files tmpdir pages meta mt h
  subst hmeta
  refine ⟨?_, ?_, ?_⟩
  · rw [metaStamped, alistLookup_dictUpdate_other (by decide)]
    exact alistLookup_dictUpdate_self _ _ _
  · rw [metaStamped]
    exact alistLookup_dictUpdate_self _ _ _
  · intro k hk1 hk2
    rw [metaStamped, alistLookup_dictUpdate_other hk2, alistLookup_dictUpdate_other hk1]

/-- Claim C6, witness: a run whose merged document already carried
`/Title` and an old `/Producer`; the stamp overwrites `/Producer` and
preserves `/Title`. -/
theorem claim6_witness :
    alistLookup "/Producer"
      [("/Title", "x"), ("/Producer", "docTR"), ("/Creator", "docTR")] = some "docTR" ∧
    alistLookup "/Creator"
      [("/Title", "x"), ("/Producer", "docTR"), ("/Creator", "docTR")] = some "docTR" ∧
    alistLookup "/Title"
      [("/Title", "x"), ("/Producer", "docTR"), ("/Creator", "docTR")] =
      alistLookup "/Title" [("/Title", "x"), ("/Producer", "old")] := by
  have h := claim6_metadata_stamp
    (okEnv [0] [100] (some [("/Title", "x"), ("/Producer", "old")])) [⟨5⟩] tdir
    [(0, 100)] [("/Title", "x"), ("/Producer", "docTR"), ("/Creator", "docTR")]
    "application/pdf" (by decide)
  exact ⟨h.1, h.2.1, h.2.2 "/Title" (by decide) (by decide)⟩

/-- Claim C7. When `get_documents` or `init_predictor` raises `ValueError`
(unresolvable model configuration or malformed upload), the handler
returns HTTP 400 carrying the exception's message, with an empty event
trace: no inference call, no file creation, no PDF assembly. -/
theorem claim7_validation_error_400 (env : Env) (files : List UpFile) (tmpdir : FPath)
    (m : String)
    (h : env.getDocuments files = .error (.valueError m) ∨
      (∃ cn, env.getDocuments files = .ok cn ∧
        env.initPredictor = .error (.valueError m))) :
    perform_ocr env files tmpdir = ([], .clientError 400 m) := by
  unfold perform_ocr
  rcases h with h | ⟨⟨content, ns⟩, hgd, hip⟩
  · simp [h]
  · simp [hgd, hip]

/-- Claim C7, witness: a malformed upload yields exactly a 400 with the
raised message and an empty trace. -/
theorem claim7_witness :
    perform_ocr envBadUpload [⟨5⟩] tdir = ([], .clientError 400 "invalid file format") :=
  claim7_validation_error_400 envBadUpload [⟨5⟩] tdir "invalid file format" (Or.inl rfl)

/-- Claim C8. In any single run, the DPI from which the rasterization
scale is derived (`dpi = 300`, `scale = dpi / 72.0`, lines 43-45) equals
the DPI passed to every per-page `HocrTransform` construction (line 59):
both are the constant 300, so any two such events of one trace agree. -/
theorem claim8_dpi_invariant (env : Env) (files : List UpFile) (tmpdir : FPath)
    (d1 b d2 j : Nat)
    (h1 : Event.rasterized d1 b ∈ (perform_ocr env files tmpdir).1)
    (h2 : Event.hocrCalled d2 j ∈ (perform_ocr env files tmpdir).1) :
    d1 = d2 := by
  have w1 : d1 = 300 := trace_wf env files tmpdir _ h1
  have w2 : d2 = 300 := trace_wf env files tmpdir _ h2
  rw [w1, w2]

/-- Claim C8, witness: a successful one-page run contains both events with
DPI 300. -/
theorem claim8_witness :
    Event.rasterized 300 5 ∈ (perform_ocr (okEnv [0] [100] none) [⟨5⟩] tdir).1 ∧
    Event.hocrCalled 300 0 ∈ (perform_ocr (okEnv [0] [100] none) [⟨5⟩] tdir).1 ∧
    (300 : Nat) = 300 := by
  refine ⟨by decide, by decide, ?_⟩
  exact claim8_dpi_invariant (okEnv [0] [100] none) [⟨5⟩] tdir 300 5 300 0
    (by decide) (by decide)

/-- Claim C9. Every file the handler creates (per-page JPEG, per-page xml,
per-page PDF, merged PDF) lives inside the request's temporary directory;
after any run the filesystem effect of the trace is empty (everything
created was removed); and on every path entering the assembly phase (the
`with TemporaryDirectory()` block, reached when loading, validation,
inference, export and rasterization succeed) the directory cleanup event
occurs in the trace regardless of how the body fared. -/
theorem claim9_tmpdir_scoped_cleanup (env : Env) (files : List UpFile) (tmpdir : FPath) :
    (∀ p, Event.created p ∈ (perform_ocr env files tmpdir).1 →
      ∃ name, p = inTmp tmpdir name) ∧
    survivingFiles tmpdir (perform_ocr env files tmpdir).1 [] = [] ∧
    (∀ (f0 : UpFile) (rest : List UpFile) (content : List Image) (ns : List String)
      (out : Nat) (xmls : List Xml) (docs : List Image),
      files = f0 :: rest →
      env.getDocuments files = .ok (content, ns) →
      env.initPredictor = .ok () →
      env.predict content = .ok out →
      env.exportAsXml out = .ok xmls →
      env.fromPdf f0.bytes = .ok docs →
      Event.removedTmpdir ∈ (perform_ocr env files tmpdir).1) := by
  refine ⟨?_, survivingFiles_perform_ocr env files tmpdir, ?_⟩
  · intro p hp
    exact trace_wf env files tmpdir _ hp
  · intro f0 rest content ns out xmls docs hf hgd hip hp hx hfp
    subst hf
    unfold perform_ocr
    simp only [hgd, hip, hp, hx, hfp]
    rcases hwb : withBody env tmpdir xmls docs with ⟨evs, r⟩
    cases r <;> simp [hwb]

/-- Claim C9, witness: a successful one-page run removes the directory and
leaves no file behind. -/
theorem claim9_witness :
    survivingFiles tdir (perform_ocr (okEnv [0] [100] none) [⟨5⟩] tdir).1 [] = [] ∧
    Event.removedTmpdir ∈ (perform_ocr (okEnv [0] [100] none) [⟨5⟩] tdir).1 := by
  have h := claim9_tmpdir_scoped_cleanup (okEnv [0] [100] none) [⟨5⟩] tdir
  exact ⟨h.2.1, h.2.2 ⟨5⟩ [] [100] ["upload.pdf"] 0 [0] [100] rfl rfl rfl rfl rfl rfl⟩

/-- Claim C10. With the document loader modelled from the spec
(`specGetDocuments`: the predictor's input is every uploaded file's pages,
in order), a multi-file upload runs inference over all files' page images,
but rasterizes only `files[0]`'s bytes (lines 40-45), so every page image
appearing in the returned PDF comes from the first file's rasterization;
later files contribute no page images to the output. -/
theorem claim10_first_file_only (env : Env) (loader : Nat → List Image)
    (f0 : UpFile) (rest : List UpFile) (tmpdir : FPath)
    (ns : List String) (out : Nat) (xmls : List Xml)
    (hgd : env.getDocuments (f0 :: rest) =
      .ok (specGetDocuments loader (f0 :: rest), ns))
    (hip : env.initPredictor = .ok ())
    (hp : env.predict (specGetDocuments loader (f0 :: rest)) = .ok out)
    (hx : env.exportAsXml out = .ok xmls)
    (hfp : env.fromPdf f0.bytes = .ok (loader f0.bytes)) :
    Event.inferredOn (specGetDocuments loader (f0 :: rest)) ∈
      (perform_ocr env (f0 :: rest) tmpdir).1 ∧
    Event.rasterized 300 f0.bytes ∈ (perform_ocr env (f0 :: rest) tmpdir).1 ∧
    ∀ (pages : List (Xml × Image)) (meta : List (String × String)) (mt : String),
      (perform_ocr env (f0 :: rest) tmpdir).2 = .ok pages meta mt →
      ∀ pr ∈ pages, pr.2 ∈ loader f0.bytes := by
  refine ⟨?_, ?_, ?_⟩
  · unfold perform_ocr
    simp only [hgd, hip, hp, hx, hfp]
    rcases hwb : withBody env tmpdir xmls (loader f0.bytes) with ⟨evs, r⟩
    cases r <;> simp [hwb]
  · unfold perform_ocr
    simp only [hgd, hip, hp, hx, hfp]
    rcases hwb : withBody env tmpdir xmls (loader f0.bytes) with ⟨evs, r⟩
    cases r <;> simp [hwb]
  · intro pages meta mt h pr hpr
    obtain ⟨-, -, f0', rest', docs', xmls', arts, heq, hfp', hpl, hpages⟩ :=
      perform_ocr_ok_inv env (f0 :: rest) tmpdir pages meta mt h
    injection heq with h1 h2
    subst h1
    rw [hfp] at hfp'
    injection hfp' with h3
    subst h3
    subst hpages
    have hmem := mem_mergedPdfPages hpr
    obtain ⟨a, ha, ha2⟩ := List.mem_map.mp hmem
    have hzip := pageLoop_arts_sub env tmpdir _ 0 arts hpl a ha
    have h4 := (List.of_mem_zip hzip).2
    rw [← ha2]
    exact h4

/-- Claim C10, witness: two uploaded files (bytes 1 with page image 100,
bytes 2 with page image 200); inference sees both pages, the returned PDF
contains only a page image of the first file. -/
theorem claim10_witness :
    Event.inferredOn (specGetDocuments demoLoader twoFiles) ∈
      (perform_ocr envTwoFiles twoFiles tdir).1 ∧
    (100 : Image) ∈ demoLoader 1 := by
  have h := claim10_first_file_only envTwoFiles demoLoader ⟨1⟩ [⟨2⟩] tdir
    ["a.pdf", "b.pdf"] 0 [0] rfl rfl rfl rfl rfl
  exact ⟨h.1, h.2.2 [(0, 100)] [("/Producer", "docTR"), ("/Creator", "docTR")]
    "application/pdf" (by decide) (0, 100) (by decide)⟩
